import Mathlib

/-!
Verification of the measurement-series store and incremental line-protocol
parser of `measurementdata.cpp` / `measurementdata.h`.

The C++ code is shallowly embedded: `double` sample values are modelled as
rationals (`ℚ`), `std::string` buffers as `List Char`, `std::vector` as
`List`, and the fallible `std::vector::at` access as `Except`.  Each Lean
definition mirrors the corresponding C++ function line by line.
-/

/-- Return value of the parser (`enum class ParseResult`). -/
inductive ParseResult
  | Nothing
  | SeriesCompleted
deriving DecidableEq

/-- Parser state (`enum class ParserState`, a private member of
`MeasurementDataManager`). -/
inductive ParserState
  | Idle
  | ReceivingSeries
deriving DecidableEq

/-- A single measurement point (`struct MeasurementPoint`): voltage in volt
and current in milliampere, both `double` in C++, modelled as `ℚ`. -/
structure MeasurementPoint where
  voltageVolt : ℚ
  currentMilliAmp : ℚ
deriving DecidableEq

/-- A measurement series (`class MeasurementSeries`): an ordered sequence of
measurement points (`std::vector<MeasurementPoint> points_`). -/
structure MeasurementSeries where
  points : List MeasurementPoint
deriving DecidableEq

/-- `MeasurementSeries::addPoint`: appends a new point at the end. -/
def MeasurementSeries.addPoint (s : MeasurementSeries) (voltage currentMilliAmp : ℚ) :
    MeasurementSeries :=
  ⟨s.points ++ [⟨voltage, currentMilliAmp⟩]⟩

/-- `MeasurementSeries::size`. -/
def MeasurementSeries.size (s : MeasurementSeries) : Nat :=
  s.points.length

/-- `MeasurementSeries::empty`. -/
def MeasurementSeries.empty (s : MeasurementSeries) : Bool :=
  s.points.isEmpty

/-- The manager state (`class MeasurementDataManager`): parser state, the
line-assembly buffer, the in-progress temporary series and the collection of
completed series, with the member names of the C++ class. -/
structure MeasurementDataManager where
  state_ : ParserState
  currentLine_ : List Char
  tempSeries_ : MeasurementSeries
  series_ : List MeasurementSeries
deriving DecidableEq

namespace MeasurementDataManager

/-- The default-constructed manager (`MeasurementDataManager() = default`,
which gives `state_ = ParserState::Idle` and empty containers). -/
def init : MeasurementDataManager :=
  ⟨ParserState.Idle, [], ⟨[]⟩, []⟩

/-- `MeasurementDataManager::seriesCount`. -/
def seriesCount (m : MeasurementDataManager) : Nat :=
  m.series_.length

/-- Failure of `std::vector::at` on an out-of-range index
(`std::out_of_range`). -/
inductive AccessError
  | outOfRange
deriving DecidableEq

/-- `MeasurementDataManager::series`: `series_.at(index)`, which returns the
element at `index` when `index < series_.size()` and otherwise throws
`std::out_of_range` (modelled as `Except.error`).  The member is `const`: it
returns no new manager state. -/
def series (m : MeasurementDataManager) (index : Nat) :
    Except AccessError MeasurementSeries :=
  if h : index < m.series_.length then Except.ok (m.series_.get ⟨index, h⟩)
  else Except.error AccessError.outOfRange

/-- `MeasurementDataManager::removeAllSeries`: `series_.clear()`. -/
def removeAllSeries (m : MeasurementDataManager) : MeasurementDataManager :=
  { m with series_ := [] }

/-- `MeasurementDataManager::removeLastSeries`:
`if (!series_.empty()) series_.pop_back();`. -/
def removeLastSeries (m : MeasurementDataManager) : MeasurementDataManager :=
  if m.series_.isEmpty then m else { m with series_ := m.series_.dropLast }

/-- `MeasurementDataManager::tempSeriesSize`. -/
def tempSeriesSize (m : MeasurementDataManager) : Nat :=
  m.tempSeries_.size

/-- `MeasurementDataManager::getMaxVoltage`: fold the comparison
`if (p.voltageVolt > maxV) maxV = p.voltageVolt` over every completed series,
then over the temporary series, starting from `0.0`. -/
def getMaxVoltage (m : MeasurementDataManager) : ℚ :=
  let maxV := m.series_.foldl
    (fun mv s => s.points.foldl
      (fun mv2 p => if p.voltageVolt > mv2 then p.voltageVolt else mv2) mv) 0
  m.tempSeries_.points.foldl
    (fun mv2 p => if p.voltageVolt > mv2 then p.voltageVolt else mv2) maxV

/-- `MeasurementDataManager::getMaxCurrent`: identical scan on the
`currentMilliAmp` coordinate. -/
def getMaxCurrent (m : MeasurementDataManager) : ℚ :=
  let maxI := m.series_.foldl
    (fun mi s => s.points.foldl
      (fun mi2 p => if p.currentMilliAmp > mi2 then p.currentMilliAmp else mi2) mi) 0
  m.tempSeries_.points.foldl
    (fun mi2 p => if p.currentMilliAmp > mi2 then p.currentMilliAmp else mi2) maxI

/-- `std::isspace` in the default locale, on the characters relevant to the
protocol: space, tab, line feed, vertical tab, form feed, carriage return. -/
def isspace (c : Char) : Bool :=
  c == ' ' || c == '\t' || c == '\n' || c == '\x0b' || c == '\x0c' || c == '\r'

/-- `MeasurementDataManager::trim`: drop leading and trailing characters
satisfying `std::isspace`. -/
def trim (s : List Char) : List Char :=
  ((s.dropWhile isspace).reverse.dropWhile isspace).reverse

end MeasurementDataManager

/-- Numeric value of a list of decimal digit characters, most significant
first (the accumulation performed by the C library numeric conversion). -/
def natOfDigits (ds : List Char) : Nat :=
  ds.foldl (fun n c => 10 * n + (c.toNat - '0'.toNat)) 0

/-- The characters `num_get` stage 2 treats as possible parts of a numeric
field (the `src` atom table of C++ [facet.num.get.virtuals]): decimal
digits, the hexadecimal digits and prefixes (`a`-`f`, `A`-`F`, `x`, `X`),
the binary exponent letters `p`/`P`, the decimal point, and the signs. -/
def isAtomChar (c : Char) : Bool :=
  c.isDigit || c == '.' ||
    ['a', 'b', 'c', 'd', 'e', 'f', 'A', 'B', 'C', 'D', 'E', 'F',
      'x', 'X', 'p', 'P', '+', '-'].contains c

/-- Exponent letters, after which a sign may still be accumulated. -/
def isExpChar (c : Char) : Bool :=
  c == 'e' || c == 'E' || c == 'p' || c == 'P'

/-- Sign characters. -/
def isSignChar (c : Char) : Bool :=
  c == '+' || c == '-'

/-- `num_get` stage 2: greedily accumulate the numeric field from the
stream.  Every atom character is accumulated, except that a sign is
accumulated only as the first character of the field or immediately after an
exponent letter (the position rule of the libstdc++/libc++ facets); the
first character outside the set terminates the field.  `prev` is the last
accumulated character.  Returns the accumulated field and the unconsumed
remainder of the stream.  In the default "C" locale `grouping()` is empty,
so no thousands-separator character is ever discarded. -/
def fieldTake (prev : Option Char) : List Char → List Char × List Char
  | [] => ([], [])
  | c :: rest =>
    let ok : Bool :=
      if isSignChar c then
        match prev with
        | none => true
        | some p => isExpChar p
      else isAtomChar c
    if ok then
      let pr := fieldTake (some c) rest
      (c :: pr.1, pr.2)
    else ([], c :: rest)

/-- Hexadecimal digit test for the hexadecimal form of `strtod`. -/
def isHexDig (c : Char) : Bool :=
  c.isDigit ||
    ['a', 'b', 'c', 'd', 'e', 'f', 'A', 'B', 'C', 'D', 'E', 'F'].contains c

/-- Numeric value of one hexadecimal digit. -/
def hexVal (c : Char) : Nat :=
  if c.isDigit then c.toNat - '0'.toNat
  else if c.toNat ≤ 'F'.toNat then c.toNat - 'A'.toNat + 10
  else c.toNat - 'a'.toNat + 10

/-- Numeric value of a list of hexadecimal digit characters, most
significant first. -/
def natOfHexDigits (ds : List Char) : Nat :=
  ds.foldl (fun n c => 16 * n + hexVal c) 0

/-- The exact rational `b ^ ex` for a natural base and an integer exponent,
computed through natural-number powers. -/
def qpowN (b : ℕ) (ex : Int) : ℚ :=
  if 0 ≤ ex then ((b ^ ex.toNat : ℕ) : ℚ) else 1 / ((b ^ (-ex).toNat : ℕ) : ℚ)

/-- A complete exponent part after the exponent letter: an optional sign
followed by a non-empty digit run making up the whole rest of the field;
anything else fails the whole conversion. -/
def expFull (s : List Char) : Option Int :=
  match s with
  | [] => none
  | c :: r =>
    if c = '-' then
      if r.length ≠ 0 ∧ r.all Char.isDigit then some (-(natOfDigits r : Int))
      else none
    else if c = '+' then
      if r.length ≠ 0 ∧ r.all Char.isDigit then some ((natOfDigits r : Int))
      else none
    else if (c :: r).all Char.isDigit then some ((natOfDigits (c :: r) : Int))
    else none

/-- `strtod` on a decimal subject sequence, required to span the whole
input: an integer-digit run with an optional decimal point and
fraction-digit run (at least one mantissa digit), then an optional complete
exponent; the exact value in `ℚ`. -/
def decBody (s : List Char) : Option ℚ :=
  let intD := s.takeWhile Char.isDigit
  let r1 := s.dropWhile Char.isDigit
  match r1 with
  | [] => if intD.length = 0 then none else some ((natOfDigits intD : ℚ))
  | c :: r2 =>
    if c = '.' then
      let fracD := r2.takeWhile Char.isDigit
      let r3 := r2.dropWhile Char.isDigit
      if intD.length = 0 ∧ fracD.length = 0 then none
      else
        let mant : ℚ := (natOfDigits (intD ++ fracD) : ℚ) / ((10 ^ fracD.length : ℕ) : ℚ)
        match r3 with
        | [] => some mant
        | e :: r4 =>
          if e = 'e' ∨ e = 'E' then
            match expFull r4 with
            | none => none
            | some ex => some (mant * qpowN 10 ex)
          else none
    else if (c = 'e' ∨ c = 'E') ∧ intD.length ≠ 0 then
      match expFull r2 with
      | none => none
      | some ex => some ((natOfDigits intD : ℚ) * qpowN 10 ex)
    else none

/-- `strtod` on a hexadecimal subject sequence after the `0x`/`0X` prefix,
required to span the whole input: hex digits with an optional hexadecimal
point and an optional complete binary (`p`) exponent. -/
def hexBody (s : List Char) : Option ℚ :=
  let intD := s.takeWhile isHexDig
  let r1 := s.dropWhile isHexDig
  match r1 with
  | [] => if intD.length = 0 then none else some ((natOfHexDigits intD : ℚ))
  | c :: r2 =>
    if c = '.' then
      let fracD := r2.takeWhile isHexDig
      let r3 := r2.dropWhile isHexDig
      if intD.length = 0 ∧ fracD.length = 0 then none
      else
        let mant : ℚ := (natOfHexDigits (intD ++ fracD) : ℚ) / ((16 ^ fracD.length : ℕ) : ℚ)
        match r3 with
        | [] => some mant
        | p :: r4 =>
          if p = 'p' ∨ p = 'P' then
            match expFull r4 with
            | none => none
            | some ex => some (mant * qpowN 2 ex)
          else none
    else if (c = 'p' ∨ c = 'P') ∧ intD.length ≠ 0 then
      match expFull r2 with
      | none => none
      | some ex => some ((natOfHexDigits intD : ℚ) * qpowN 2 ex)
    else none

/-- The unsigned part of a `strtod` subject sequence: hexadecimal when the
field continues with `0x`/`0X`, decimal otherwise. -/
def strtodBody (s : List Char) : Option ℚ :=
  match s with
  | '0' :: c :: r => if c = 'x' ∨ c = 'X' then hexBody r else decBody s
  | _ => decBody s

/-- `strtod` applied to the whole accumulated field, as `num_get` stage 3
requires: an optional sign, then a decimal or hexadecimal subject sequence
spanning the entire field; `none` when any part of the field is left over
("inf"/"nan" spellings contain characters stage 2 never accumulates, so they
cannot occur in a field). -/
def strtodFull (field : List Char) : Option ℚ :=
  match field with
  | [] => none
  | c :: r =>
    if c = '-' then
      match strtodBody r with
      | none => none
      | some v => some (-v)
    else if c = '+' then strtodBody r
    else strtodBody (c :: r)

/-- Smallest magnitude that overflows `double` under round-to-nearest-even:
the midpoint between the largest finite `double` (`2^1024 - 2^971`) and
`2^1024`.  From this magnitude on, `strtod` reports `ERANGE`. -/
def overflowThreshold : ℚ := ((2 ^ 1024 - 2 ^ 970 : ℕ) : ℚ)

/-- Smallest magnitude that still rounds to a normal `double`, namely
`2^(-1022) - 2^(-1075) = (2^53 - 1) / 2^1075`; below it the result is
denormal or zero and glibc's `strtod` reports `ERANGE` (underflow). -/
def underflowThreshold : ℚ := ((2 ^ 53 - 1 : ℕ) : ℚ) / ((2 ^ 1075 : ℕ) : ℚ)

/-- The converted value lies outside the range `num_get` accepts for a
`double` (`errno == ERANGE`): at or beyond the overflow threshold in
magnitude, or non-zero and strictly inside the underflow threshold. -/
abbrev outOfDoubleRange (v : ℚ) : Prop :=
  (overflowThreshold ≤ v ∨ v ≤ -overflowThreshold) ∨
    (v ≠ 0 ∧ -underflowThreshold < v ∧ v < underflowThreshold)

/-- One `iss >> x` extraction of a `double` from the stream
(`operator>>(istream&, double&)` with `num_get` stages 2 and 3): the sentry
skips leading whitespace, stage 2 greedily accumulates the numeric field
(`fieldTake`), stage 3 converts the whole field (`strtodFull`).  The
extraction succeeds — returning the exact value and the unconsumed remainder
of the stream — only when the entire field is a valid subject sequence whose
value is within the range of `double`; otherwise `failbit` is set, modelled
as `none`. -/
def parseDouble (s : List Char) : Option (ℚ × List Char) :=
  let s1 := s.dropWhile MeasurementDataManager.isspace
  let fr := fieldTake none s1
  match strtodFull fr.1 with
  | none => none
  | some v => if outOfDoubleRange v then none else some (v, fr.2)

/-- The two chained extractions `iss >> x >> y` of
`MeasurementDataManager::parseDataLine`: both must succeed; whatever follows
the second number on the line is not examined. -/
def parsePoint (line : List Char) : Option (ℚ × ℚ) :=
  match parseDouble line with
  | none => none
  | some (x, rest) =>
    match parseDouble rest with
    | none => none
    | some (y, _) => some (x, y)

namespace MeasurementDataManager

/-- `MeasurementDataManager::parseDataLine`: extract two doubles from the
line; on success append the point `(x, y)` to the temporary series, otherwise
return with no change. -/
def parseDataLine (m : MeasurementDataManager) (line : List Char) :
    MeasurementDataManager :=
  match parsePoint line with
  | none => m
  | some (x, y) => { m with tempSeries_ := m.tempSeries_.addPoint x y }

/-- `MeasurementDataManager::handleCompletedLine`: trim the assembled line,
then dispatch on its content exactly as the C++ `if` chain does. -/
def handleCompletedLine (m : MeasurementDataManager) (rawLine : List Char) :
    MeasurementDataManager × ParseResult :=
  let line := trim rawLine
  if line.isEmpty then (m, ParseResult.Nothing)
  else if line = ['*'] then
    ({ m with tempSeries_ := ⟨[]⟩, state_ := ParserState.ReceivingSeries },
      ParseResult.Nothing)
  else if line.head? = some '*' ∧ line ≠ ['*'] then (m, ParseResult.Nothing)
  else if line = ['#'] then
    if m.state_ = ParserState.ReceivingSeries ∧ m.tempSeries_.empty = false then
      ({ m with
          series_ := m.series_ ++ [m.tempSeries_]
          tempSeries_ := ⟨[]⟩
          state_ := ParserState.Idle }, ParseResult.SeriesCompleted)
    else (m, ParseResult.Nothing)
  else if m.state_ = ParserState.ReceivingSeries then
    (m.parseDataLine line, ParseResult.Nothing)
  else (m, ParseResult.Nothing)

/-- `MeasurementDataManager::processReceivedChar`: a line feed hands the
assembled buffer to `handleCompletedLine` and clears it; a carriage return is
dropped; any other byte is appended to the buffer. -/
def processReceivedChar (m : MeasurementDataManager) (c : Char) :
    MeasurementDataManager × ParseResult :=
  if c = '\n' then
    let result := m.handleCompletedLine m.currentLine_
    ({ result.1 with currentLine_ := [] }, result.2)
  else if c ≠ '\r' then
    ({ m with currentLine_ := m.currentLine_ ++ [c] }, ParseResult.Nothing)
  else (m, ParseResult.Nothing)

/-- Feed a whole byte sequence one character at a time, collecting the
`ParseResult` of every call (the caller's loop over incoming serial bytes). -/
def processAll (m : MeasurementDataManager) :
    List Char → MeasurementDataManager × List ParseResult
  | [] => (m, [])
  | c :: cs =>
    let pr := m.processReceivedChar c
    let rest := pr.1.processAll cs
    (rest.1, pr.2 :: rest.2)

end MeasurementDataManager

/-- The point built from the two extracted values of one data line (first
token = voltage, second token = current). -/
def mkPoint (v : ℚ × ℚ) : MeasurementPoint :=
  ⟨v.1, v.2⟩

/-- A protocol data line carrying the value pair `v`: it contains no line
terminator bytes, and its trimmed content yields `v` under the two
`double` extractions of `parseDataLine`. -/
def okLine (l : List Char) (v : ℚ × ℚ) : Prop :=
  (∀ c ∈ l, c ≠ '\n' ∧ c ≠ '\r') ∧
    parsePoint (MeasurementDataManager.trim l) = some v

/-- The byte stream of one acquisition: a `*` line, the given data lines,
then a `#` line, each LF-terminated. -/
def seriesStream (ls : List (List Char)) : List Char :=
  '*' :: '\n' :: ((ls.map (fun l => l ++ ['\n'])).flatten ++ ['#', '\n'])

/-- Every point held by the manager: those of every completed series followed
by those of the temporary series (the scan order of the max queries). -/
def MeasurementDataManager.allPoints (m : MeasurementDataManager) :
    List MeasurementPoint :=
  (m.series_.map MeasurementSeries.points).flatten ++ m.tempSeries_.points

/-- The voltage coordinates of every point held by the manager. -/
def MeasurementDataManager.allVoltages (m : MeasurementDataManager) : List ℚ :=
  m.allPoints.map MeasurementPoint.voltageVolt

/-- The current coordinates of every point held by the manager. -/
def MeasurementDataManager.allCurrents (m : MeasurementDataManager) : List ℚ :=
  m.allPoints.map MeasurementPoint.currentMilliAmp

/-- Every completed series of the manager is non-empty. -/
def MeasurementDataManager.completedNonempty (m : MeasurementDataManager) : Prop :=
  ∀ s ∈ m.series_, s.points ≠ []

/-- A manager holding a single completed series with the single all-negative
point `(-1, -2)`. -/
def negMgr : MeasurementDataManager :=
  ⟨ParserState.Idle, [], ⟨[]⟩, [⟨[⟨-1, -2⟩]⟩]⟩

/-- A manager in the middle of an acquisition: state `ReceivingSeries` with
one point `(1, 2)` already collected in the temporary series. -/
def busyMgr : MeasurementDataManager :=
  ⟨ParserState.ReceivingSeries, [], ⟨[⟨1, 2⟩]⟩, []⟩

/-! ### Evaluation lemmas for the numeric extraction -/

theorem parseDouble_star (t : List Char) : parseDouble ('*' :: t) = none := rfl

theorem parsePoint_nil : parsePoint [] = none := rfl

theorem parsePoint_star (t : List Char) : parsePoint ('*' :: t) = none := by
  unfold parsePoint
  rw [parseDouble_star]

theorem parsePoint_hash : parsePoint ['#'] = none := rfl

-- Behaviour of the modelled extraction on the edge shapes of the istream
-- grammar: a field with a dangling exponent or stray atom characters fails
-- the whole extraction, hexadecimal fields and exponents are accepted, and
-- values outside the range of `double` fail with `ERANGE`.
set_option maxRecDepth 8192 in
set_option exponentiation.threshold 1100 in
unseal Rat.mul Rat.inv in
theorem parseDouble_edge_cases :
    parseDouble ['2', 'e'] = none ∧
      parseDouble ['4', 'e', '+'] = none ∧
      parseDouble ['1', '.', '2', '.', '3'] = none ∧
      parseDouble ['4', 'x'] = none ∧
      parseDouble ['1', 'b', '2'] = none ∧
      parseDouble ['0', 'x', '1', '0'] = some (16, []) ∧
      parseDouble ['1', '.', '5', 'e', '2'] = some (150, []) ∧
      parseDouble ['1', 'e', '9', '9', '9'] = none ∧
      parseDouble ['1', 'e', '-', '9', '9', '9'] = none := by
  decide

namespace MeasurementDataManager

/-! ### Branch lemmas for `handleCompletedLine` -/

theorem handleCompletedLine_star (m : MeasurementDataManager) (raw : List Char)
    (h : trim raw = ['*']) :
    m.handleCompletedLine raw =
      ({ m with tempSeries_ := ⟨[]⟩, state_ := ParserState.ReceivingSeries },
        ParseResult.Nothing) := by
  unfold handleCompletedLine
  rw [h]
  rfl

theorem handleCompletedLine_hash (m : MeasurementDataManager) (raw : List Char)
    (h : trim raw = ['#']) :
    m.handleCompletedLine raw =
      if m.state_ = ParserState.ReceivingSeries ∧ m.tempSeries_.points ≠ [] then
        ({ m with
            series_ := m.series_ ++ [m.tempSeries_]
            tempSeries_ := ⟨[]⟩
            state_ := ParserState.Idle }, ParseResult.SeriesCompleted)
      else (m, ParseResult.Nothing) := by
  unfold handleCompletedLine
  rw [h]
  simp [MeasurementSeries.empty, List.isEmpty_iff]

theorem handleCompletedLine_meta (m : MeasurementDataManager) (raw : List Char)
    (h1 : (trim raw).head? = some '*') (h2 : trim raw ≠ ['*']) :
    m.handleCompletedLine raw = (m, ParseResult.Nothing) := by
  unfold handleCompletedLine
  have hne : (trim raw).isEmpty = false := by
    cases he : trim raw with
    | nil => rw [he] at h1; cases h1
    | cons a t => rfl
  rw [if_neg (by rw [hne]; exact Bool.false_ne_true), if_neg h2, if_pos ⟨h1, h2⟩]

theorem handleCompletedLine_data (m : MeasurementDataManager) (raw : List Char)
    (hst : m.state_ = ParserState.ReceivingSeries) (x y : ℚ)
    (hp : parsePoint (trim raw) = some (x, y)) :
    m.handleCompletedLine raw =
      ({ m with tempSeries_ := ⟨m.tempSeries_.points ++ [⟨x, y⟩]⟩ },
        ParseResult.Nothing) := by
  have hnil : trim raw ≠ [] := by
    intro he; rw [he, parsePoint_nil] at hp; cases hp
  have hstar : trim raw ≠ ['*'] := by
    intro he; rw [he] at hp; cases hp
  have hhead : ¬ ((trim raw).head? = some '*') := by
    intro hh
    cases he : trim raw with
    | nil => exact hnil he
    | cons a t =>
      rw [he] at hh hp
      cases hh
      rw [parsePoint_star] at hp
      cases hp
  have hhash : trim raw ≠ ['#'] := by
    intro he; rw [he, parsePoint_hash] at hp; cases hp
  unfold handleCompletedLine
  rw [if_neg (by simp [List.isEmpty_iff, hnil]), if_neg hstar,
    if_neg (by intro hc; exact hhead hc.1), if_neg hhash, if_pos hst]
  unfold parseDataLine
  rw [hp]
  rfl

/-! ### Behaviour of the byte-level loop -/

theorem processReceivedChar_newline (m : MeasurementDataManager) :
    m.processReceivedChar '\n' =
      ({ (m.handleCompletedLine m.currentLine_).1 with currentLine_ := [] },
        (m.handleCompletedLine m.currentLine_).2) := rfl

theorem processReceivedChar_plain (m : MeasurementDataManager) (c : Char)
    (h1 : c ≠ '\n') (h2 : c ≠ '\r') :
    m.processReceivedChar c =
      ({ m with currentLine_ := m.currentLine_ ++ [c] }, ParseResult.Nothing) := by
  unfold processReceivedChar
  rw [if_neg h1, if_pos h2]

theorem processAll_append (m : MeasurementDataManager) (a b : List Char) :
    m.processAll (a ++ b) =
      (((m.processAll a).1.processAll b).1,
        (m.processAll a).2 ++ ((m.processAll a).1.processAll b).2) := by
  induction a generalizing m with
  | nil => simp [processAll]
  | cons c cs ih => simp [processAll, ih]

theorem parseDataLine_currentLine (m : MeasurementDataManager) (x l : List Char) :
    ({ m with currentLine_ := x } : MeasurementDataManager).parseDataLine l =
      { m.parseDataLine l with currentLine_ := x } := by
  unfold parseDataLine
  cases parsePoint l with
  | none => rfl
  | some v => rfl

theorem handleCompletedLine_currentLine (m : MeasurementDataManager) (x raw : List Char) :
    ({ m with currentLine_ := x } : MeasurementDataManager).handleCompletedLine raw =
      ({ (m.handleCompletedLine raw).1 with currentLine_ := x },
        (m.handleCompletedLine raw).2) := by
  unfold handleCompletedLine
  dsimp only
  split_ifs <;> simp [parseDataLine_currentLine]

theorem processAll_plain (m : MeasurementDataManager) (l : List Char)
    (h : ∀ c ∈ l, c ≠ '\n' ∧ c ≠ '\r') :
    m.processAll l =
      ({ m with currentLine_ := m.currentLine_ ++ l },
        List.replicate l.length ParseResult.Nothing) := by
  induction l generalizing m with
  | nil => simp [processAll]
  | cons c cs ih =>
    have hc := h c (List.mem_cons_self c cs)
    have hcs : ∀ d ∈ cs, d ≠ '\n' ∧ d ≠ '\r' :=
      fun d hd => h d (List.mem_cons_of_mem c hd)
    simp [processAll, processReceivedChar_plain m c hc.1 hc.2, ih _ hcs,
      List.replicate_succ]

theorem processAll_line (m : MeasurementDataManager) (l : List Char)
    (h : ∀ c ∈ l, c ≠ '\n' ∧ c ≠ '\r') (hcl : m.currentLine_ = []) :
    m.processAll (l ++ ['\n']) =
      ({ (m.handleCompletedLine l).1 with currentLine_ := [] },
        List.replicate l.length ParseResult.Nothing ++ [(m.handleCompletedLine l).2]) := by
  rw [processAll_append, processAll_plain m l h, hcl]
  simp only [List.nil_append]
  have hstep : ({ m with currentLine_ := l } : MeasurementDataManager).processAll ['\n'] =
      (({ (m.handleCompletedLine l).1 with currentLine_ := [] }),
        [(m.handleCompletedLine l).2]) := by
    simp [processAll, processReceivedChar_newline, handleCompletedLine_currentLine]
  rw [hstep]

end MeasurementDataManager

namespace MeasurementDataManager

/-! ### The acquisition run `*`, data lines, `#` -/

set_option maxRecDepth 4096 in
theorem processAll_dataLines (ls : List (List Char)) (vals : List (ℚ × ℚ))
    (m : MeasurementDataManager) (h : List.Forall₂ okLine ls vals)
    (hcl : m.currentLine_ = []) (hst : m.state_ = ParserState.ReceivingSeries) :
    m.processAll (ls.map (fun l => l ++ ['\n'])).flatten =
      ({ m with tempSeries_ := ⟨m.tempSeries_.points ++ vals.map mkPoint⟩ },
        List.replicate ((ls.map (fun l => l.length + 1)).sum) ParseResult.Nothing) := by
  induction h generalizing m with
  | nil =>
    cases m with
    | mk st cl tp sr =>
      cases tp with
      | mk pts => simp [processAll]
  | @cons l v ls' vals' hlv hrest ih =>
    have hjoin : ((l :: ls').map (fun x => x ++ ['\n'])).flatten =
        (l ++ ['\n']) ++ (ls'.map (fun x => x ++ ['\n'])).flatten := by
      simp
    have hstep : m.processAll (l ++ ['\n']) =
        ({ m with
            currentLine_ := []
            tempSeries_ := ⟨m.tempSeries_.points ++ [mkPoint v]⟩ },
          List.replicate l.length ParseResult.Nothing ++ [ParseResult.Nothing]) := by
      rw [processAll_line m l hlv.1 hcl,
        handleCompletedLine_data m l hst v.1 v.2 hlv.2]
      rfl
    have hm2 := ih ({ m with
        currentLine_ := []
        tempSeries_ := ⟨m.tempSeries_.points ++ [mkPoint v]⟩ }) rfl hst
    rw [hjoin, processAll_append, hstep]
    dsimp only
    rw [hm2]
    rw [show (m.currentLine_ : List Char) = [] from hcl]
    dsimp only
    simp only [List.map_cons, List.sum_cons, List.replicate_add, List.replicate_succ',
      List.replicate_one, List.append_assoc, List.singleton_append]

theorem processAll_open : init.processAll ['*', '\n'] =
    (⟨ParserState.ReceivingSeries, [], ⟨[]⟩, []⟩,
      [ParseResult.Nothing, ParseResult.Nothing]) := by
  decide

end MeasurementDataManager

namespace MeasurementDataManager

/-! ### The max-value scans as folds of `max` -/

theorem foldl_if_max (f : MeasurementPoint → ℚ) (l : List MeasurementPoint) (a : ℚ) :
    l.foldl (fun mv p => if f p > mv then f p else mv) a = (l.map f).foldl max a := by
  induction l generalizing a with
  | nil => rfl
  | cons p t ih =>
    rw [List.foldl_cons, List.map_cons, List.foldl_cons, ih]
    rcases le_or_lt (f p) a with hle | hlt
    · rw [if_neg (not_lt.mpr hle), max_eq_left hle]
    · rw [if_pos hlt, max_eq_right hlt.le]

theorem foldl_series_max (f : MeasurementPoint → ℚ) (L : List MeasurementSeries) (a : ℚ) :
    L.foldl (fun mv s =>
        s.points.foldl (fun mv2 p => if f p > mv2 then f p else mv2) mv) a =
      ((L.map MeasurementSeries.points).flatten.map f).foldl max a := by
  induction L generalizing a with
  | nil => rfl
  | cons s t ih =>
    rw [List.foldl_cons, ih, foldl_if_max, List.map_cons, List.flatten_cons,
      List.map_append, List.foldl_append]

theorem getMaxVoltage_foldl (m : MeasurementDataManager) :
    m.getMaxVoltage = m.allVoltages.foldl max 0 := by
  unfold getMaxVoltage allVoltages allPoints
  rw [foldl_if_max, foldl_series_max, List.map_append, List.foldl_append]

theorem getMaxCurrent_foldl (m : MeasurementDataManager) :
    m.getMaxCurrent = m.allCurrents.foldl max 0 := by
  unfold getMaxCurrent allCurrents allPoints
  rw [foldl_if_max, foldl_series_max, List.map_append, List.foldl_append]

theorem foldr_max_swap (l : List ℚ) (a b : ℚ) :
    l.foldr max (max a b) = max a (l.foldr max b) := by
  induction l with
  | nil => rfl
  | cons x t ih => rw [List.foldr_cons, List.foldr_cons, ih, max_left_comm]

theorem foldl_max_eq_foldr_max (l : List ℚ) (a : ℚ) :
    l.foldl max a = l.foldr max a := by
  induction l generalizing a with
  | nil => rfl
  | cons x t ih => rw [List.foldl_cons, List.foldr_cons, ih, max_comm a x, foldr_max_swap]

theorem init_le_foldl_max (l : List ℚ) (a : ℚ) : a ≤ l.foldl max a := by
  induction l generalizing a with
  | nil => exact le_refl a
  | cons x t ih => exact le_trans (le_max_left a x) (ih (max a x))

/-! ### State-shape lemmas for the invariant -/

theorem parseDataLine_series (m : MeasurementDataManager) (l : List Char) :
    (m.parseDataLine l).series_ = m.series_ := by
  unfold parseDataLine
  cases parsePoint l with
  | none => rfl
  | some v => cases v with | mk x y => rfl

theorem handleCompletedLine_series_shape (m : MeasurementDataManager) (raw : List Char) :
    (m.handleCompletedLine raw).1.series_ = m.series_ ∨
      ((m.handleCompletedLine raw).1.series_ = m.series_ ++ [m.tempSeries_] ∧
        m.tempSeries_.points ≠ [] ∧
        (m.handleCompletedLine raw).1.tempSeries_.points = []) := by
  unfold handleCompletedLine
  dsimp only
  split_ifs with h1 h2 h3 h4 h5 h6
  · exact Or.inl rfl
  · exact Or.inl rfl
  · exact Or.inl rfl
  · refine Or.inr ⟨rfl, ?_, rfl⟩
    have := h5.2
    simpa [MeasurementSeries.empty, List.isEmpty_iff] using this
  · exact Or.inl rfl
  · exact Or.inl (parseDataLine_series m _)
  · exact Or.inl rfl

theorem processReceivedChar_series_shape (m : MeasurementDataManager) (c : Char) :
    (m.processReceivedChar c).1.series_ = m.series_ ∨
      ((m.processReceivedChar c).1.series_ = m.series_ ++ [m.tempSeries_] ∧
        m.tempSeries_.points ≠ [] ∧
        (m.processReceivedChar c).1.tempSeries_.points = []) := by
  unfold processReceivedChar
  split_ifs with h1 h2
  · dsimp only
    exact handleCompletedLine_series_shape m m.currentLine_
  · exact Or.inl rfl
  · exact Or.inl rfl

theorem removeLastSeries_eq (m : MeasurementDataManager) :
    m.removeLastSeries = { m with series_ := m.series_.dropLast } := by
  unfold removeLastSeries
  split_ifs with h
  · have hnil : m.series_ = [] := by simpa [List.isEmpty_iff] using h
    cases m with
    | mk st cl tp sr =>
      simp only at hnil
      rw [hnil]
      rfl
  · rfl

end MeasurementDataManager

/-! ## The claims -/

/-- C1: for every N >= 1, feeding from the initial manager the bytes of a `*`
line, then N LF-terminated data lines each holding two parseable numeric
tokens, then a `#` line, yields exactly one completed series holding the N
points (first token = voltage, second = current) in arrival order, and the
per-byte results are `Nothing` throughout except `SeriesCompleted` on the
single final call, the one consuming the line feed of the `#` line. -/
theorem star_data_hash_run (ls : List (List Char)) (vals : List (ℚ × ℚ))
    (hN : ls ≠ []) (h : List.Forall₂ okLine ls vals) :
    (MeasurementDataManager.init.processAll (seriesStream ls)).1.series_ =
        [⟨vals.map mkPoint⟩] ∧
      ∃ k, (MeasurementDataManager.init.processAll (seriesStream ls)).2 =
        List.replicate k ParseResult.Nothing ++ [ParseResult.SeriesCompleted] := by
  have hvals : vals ≠ [] := by
    intro hv
    subst hv
    cases h
    exact hN rfl
  have hhash : ((⟨ParserState.ReceivingSeries, [], ⟨List.map mkPoint vals⟩, []⟩ :
      MeasurementDataManager)).processAll ['#', '\n'] =
      ((⟨ParserState.Idle, [], ⟨[]⟩, [⟨List.map mkPoint vals⟩]⟩ :
        MeasurementDataManager),
        [ParseResult.Nothing, ParseResult.SeriesCompleted]) := by
    have hcond : ((⟨ParserState.ReceivingSeries, [], ⟨List.map mkPoint vals⟩, []⟩ :
        MeasurementDataManager)).state_ = ParserState.ReceivingSeries ∧
        ((⟨ParserState.ReceivingSeries, [], ⟨List.map mkPoint vals⟩, []⟩ :
        MeasurementDataManager)).tempSeries_.points ≠ [] := by
      refine ⟨rfl, ?_⟩
      simpa using hvals
    rw [show (['#', '\n'] : List Char) = ['#'] ++ ['\n'] from rfl,
      MeasurementDataManager.processAll_line _ ['#'] (by decide) rfl,
      MeasurementDataManager.handleCompletedLine_hash _ ['#'] rfl, if_pos hcond]
    rfl
  have hmain : MeasurementDataManager.init.processAll (seriesStream ls) =
      ((⟨ParserState.Idle, [], ⟨[]⟩, [⟨List.map mkPoint vals⟩]⟩ :
        MeasurementDataManager),
        [ParseResult.Nothing, ParseResult.Nothing] ++
          (List.replicate ((ls.map (fun l => l.length + 1)).sum) ParseResult.Nothing ++
            [ParseResult.Nothing, ParseResult.SeriesCompleted])) := by
    rw [show seriesStream ls =
        ['*', '\n'] ++ ((ls.map (fun l => l ++ ['\n'])).flatten ++ ['#', '\n']) from rfl,
      MeasurementDataManager.processAll_append, MeasurementDataManager.processAll_open]
    dsimp only
    rw [MeasurementDataManager.processAll_append,
      MeasurementDataManager.processAll_dataLines ls vals _ h rfl rfl]
    dsimp only
    rw [show (⟨ParserState.ReceivingSeries, [],
        ⟨MeasurementSeries.points ⟨[]⟩ ++ List.map mkPoint vals⟩, []⟩ :
        MeasurementDataManager) =
        ⟨ParserState.ReceivingSeries, [], ⟨List.map mkPoint vals⟩, []⟩ from by
      dsimp only
      rw [List.nil_append]]
    rw [hhash]
  refine ⟨?_, ⟨2 + (((ls.map (fun l => l.length + 1)).sum) + 1), ?_⟩⟩
  · rw [hmain]
  · rw [hmain]
    simp only [List.replicate_add, List.replicate_one, List.replicate_succ',
      List.replicate_zero, List.append_assoc, List.singleton_append, List.cons_append,
      List.nil_append,
      show List.replicate 2 ParseResult.Nothing =
        [ParseResult.Nothing, ParseResult.Nothing] from rfl]

-- Witness for C1 at the single data line `1 2`.
set_option maxRecDepth 8192 in
set_option exponentiation.threshold 1100 in
unseal Rat.mul Rat.inv in
theorem star_data_hash_run_witness :
    (MeasurementDataManager.init.processAll (seriesStream [['1', ' ', '2']])).1.series_ =
        [⟨[⟨1, 2⟩]⟩] ∧
      ∃ k, (MeasurementDataManager.init.processAll (seriesStream [['1', ' ', '2']])).2 =
        List.replicate k ParseResult.Nothing ++ [ParseResult.SeriesCompleted] :=
  star_data_hash_run [['1', ' ', '2']] [(1, 2)] (by decide)
    (List.Forall₂.cons ⟨by decide, by decide⟩ List.Forall₂.nil)

/-- C2 counterexample: on a store whose only point is `(-1, -2)` the getters
return `0`, not the maximum coordinate (`-1` resp. `-2`) over the stored
points, so the getters do not return "the maximum coordinate over every
point" when all coordinates are negative. -/
theorem getMax_negative_counterexample :
    negMgr.allVoltages = [-1] ∧ negMgr.getMaxVoltage = 0 ∧
      negMgr.allCurrents = [-2] ∧ negMgr.getMaxCurrent = 0 ∧
      ((0 : ℚ) ≠ -1) ∧ ((0 : ℚ) ≠ -2) := by
  decide

/-- C2 (amended): `getMaxVoltage` (resp. `getMaxCurrent`) returns the maximum
of `0.0` and every voltage (resp. current) coordinate over every point of
every completed series and of the temporary series — in particular `0.0`
when no points exist anywhere; recorded values themselves are not sign
restricted, but the scan clamps its result at the `0.0` start value. -/
theorem getMax_clamped_fold (m : MeasurementDataManager) :
    m.getMaxVoltage = m.allVoltages.foldl max 0 ∧
      m.getMaxCurrent = m.allCurrents.foldl max 0 ∧
      MeasurementDataManager.init.getMaxVoltage = 0 ∧
      MeasurementDataManager.init.getMaxCurrent = 0 :=
  ⟨MeasurementDataManager.getMaxVoltage_foldl m,
    MeasurementDataManager.getMaxCurrent_foldl m, rfl, rfl⟩

/-- C3: a line trimming to exactly `#` closes the acquisition when the state
is `ReceivingSeries` and the temporary series is non-empty — appending the
temporary series at the end of the completed collection, clearing it,
entering `Idle` and signalling `SeriesCompleted` — and in every other
state/temporary combination returns `Nothing` leaving the whole manager
unchanged. -/
theorem hash_line_dispatch (m : MeasurementDataManager) (raw : List Char)
    (h : MeasurementDataManager.trim raw = ['#']) :
    m.handleCompletedLine raw =
      if m.state_ = ParserState.ReceivingSeries ∧ m.tempSeries_.points ≠ [] then
        ({ m with
            series_ := m.series_ ++ [m.tempSeries_]
            tempSeries_ := ⟨[]⟩
            state_ := ParserState.Idle }, ParseResult.SeriesCompleted)
      else (m, ParseResult.Nothing) :=
  MeasurementDataManager.handleCompletedLine_hash m raw h

-- Witness for C3 on a mid-acquisition manager.
theorem hash_line_dispatch_witness :
    busyMgr.handleCompletedLine ['#'] =
      if busyMgr.state_ = ParserState.ReceivingSeries ∧ busyMgr.tempSeries_.points ≠ [] then
        ({ busyMgr with
            series_ := busyMgr.series_ ++ [busyMgr.tempSeries_]
            tempSeries_ := ⟨[]⟩
            state_ := ParserState.Idle }, ParseResult.SeriesCompleted)
      else (busyMgr, ParseResult.Nothing) :=
  hash_line_dispatch busyMgr ['#'] (by decide)

/-- C4: a line trimming to exactly `*`, in any parser state, replaces the
temporary series by a fresh empty one (the in-progress one is discarded and,
the completed collection being untouched, never appears in it), sets the
state to `ReceivingSeries`, and returns `Nothing`; hence a second `*` before
a `#` discards the prior incomplete temporary series. -/
theorem star_line_resets (m : MeasurementDataManager) (raw : List Char)
    (h : MeasurementDataManager.trim raw = ['*']) :
    m.handleCompletedLine raw =
      ({ m with tempSeries_ := ⟨[]⟩, state_ := ParserState.ReceivingSeries },
        ParseResult.Nothing) :=
  MeasurementDataManager.handleCompletedLine_star m raw h

-- Witness for C4: a second `*` while a temporary series is in progress.
theorem star_line_resets_witness :
    busyMgr.handleCompletedLine ['*'] =
      ({ busyMgr with tempSeries_ := ⟨[]⟩, state_ := ParserState.ReceivingSeries },
        ParseResult.Nothing) :=
  star_line_resets busyMgr ['*'] (by decide)

/-- C5: every series stored in the completed collection is non-empty — the
invariant holds in the initial state and is preserved by `processReceivedChar`,
`removeLastSeries` and `removeAllSeries` — and one `processReceivedChar` step
either leaves the completed collection unchanged or appends exactly the
(non-empty) temporary series while simultaneously clearing the temporary
slot, so an in-progress series is never in the completed collection. -/
theorem completed_series_nonempty_invariant (m : MeasurementDataManager) (c : Char)
    (hm : m.completedNonempty) :
    MeasurementDataManager.init.completedNonempty ∧
      (m.processReceivedChar c).1.completedNonempty ∧
      m.removeLastSeries.completedNonempty ∧
      m.removeAllSeries.completedNonempty ∧
      ((m.processReceivedChar c).1.series_ = m.series_ ∨
        ((m.processReceivedChar c).1.series_ = m.series_ ++ [m.tempSeries_] ∧
          m.tempSeries_.points ≠ [] ∧
          (m.processReceivedChar c).1.tempSeries_.points = [])) := by
  refine ⟨?_, ?_, ?_, ?_, MeasurementDataManager.processReceivedChar_series_shape m c⟩
  · intro s hs
    simp [MeasurementDataManager.init] at hs
  · intro s hs
    rcases MeasurementDataManager.processReceivedChar_series_shape m c with
      he | ⟨he, hne, _⟩
    · exact hm s (he ▸ hs)
    · rw [he] at hs
      rcases List.mem_append.mp hs with h1 | h1
      · exact hm s h1
      · rcases List.mem_singleton.mp h1 with rfl
        exact hne
  · intro s hs
    simp only [MeasurementDataManager.removeLastSeries_eq] at hs
    exact hm s ((List.dropLast_sublist m.series_).subset hs)
  · intro s hs
    simp [MeasurementDataManager.removeAllSeries] at hs

-- Witness for C5 at the initial manager.
theorem completed_series_nonempty_invariant_witness :
    MeasurementDataManager.init.completedNonempty ∧
      (MeasurementDataManager.init.processReceivedChar 'a').1.completedNonempty ∧
      MeasurementDataManager.init.removeLastSeries.completedNonempty ∧
      MeasurementDataManager.init.removeAllSeries.completedNonempty ∧
      ((MeasurementDataManager.init.processReceivedChar 'a').1.series_ =
          MeasurementDataManager.init.series_ ∨
        ((MeasurementDataManager.init.processReceivedChar 'a').1.series_ =
            MeasurementDataManager.init.series_ ++
              [MeasurementDataManager.init.tempSeries_] ∧
          MeasurementDataManager.init.tempSeries_.points ≠ [] ∧
          (MeasurementDataManager.init.processReceivedChar 'a').1.tempSeries_.points =
            [])) :=
  completed_series_nonempty_invariant MeasurementDataManager.init 'a'
    (by intro s hs; cases hs)

/-- C6: a line whose trimmed content starts with `*` but is not exactly `*`
(a metadata line) is ignored in every parser state: the manager — parser
state, temporary series, completed collection — is returned unchanged, no
point is appended, and the result is `Nothing`. -/
theorem metadata_line_ignored (m : MeasurementDataManager) (raw : List Char)
    (h1 : (MeasurementDataManager.trim raw).head? = some '*')
    (h2 : MeasurementDataManager.trim raw ≠ ['*']) :
    m.handleCompletedLine raw = (m, ParseResult.Nothing) :=
  MeasurementDataManager.handleCompletedLine_meta m raw h1 h2

-- Witness for C6 on the metadata line `* AVCC = 5.0`.
theorem metadata_line_ignored_witness :
    busyMgr.handleCompletedLine
        ['*', ' ', 'A', 'V', 'C', 'C', ' ', '=', ' ', '5', '.', '0'] =
      (busyMgr, ParseResult.Nothing) :=
  metadata_line_ignored busyMgr
    ['*', ' ', 'A', 'V', 'C', 'C', ' ', '=', ' ', '5', '.', '0'] (by decide) (by decide)

/-- C7: `removeLastSeries` drops exactly the last (most recently added)
completed series and nothing else — it equals the update of `series_` by
`dropLast`, so `seriesCount` goes from `N` to `N - 1` and the first `N - 1`
series are untouched — and on an empty store (e.g. the initial manager) it is
a no-op rather than a failure. -/
theorem removeLastSeries_spec (m : MeasurementDataManager) :
    m.removeLastSeries = { m with series_ := m.series_.dropLast } ∧
      m.removeLastSeries.seriesCount = m.seriesCount - 1 ∧
      MeasurementDataManager.init.removeLastSeries = MeasurementDataManager.init := by
  refine ⟨MeasurementDataManager.removeLastSeries_eq m, ?_, rfl⟩
  rw [MeasurementDataManager.removeLastSeries_eq]
  simp [MeasurementDataManager.seriesCount, List.length_dropLast]

/-- C8: `series index` returns the series stored at `index` in the completed
collection when `index < seriesCount` (the accessor is read-only: it returns
no new manager state), and fails with the out-of-range condition when
`index >= seriesCount`. -/
theorem series_access_spec (m : MeasurementDataManager) (i : Nat) :
    (∀ h : i < m.seriesCount, m.series i = Except.ok (m.series_.get ⟨i, h⟩)) ∧
      (m.seriesCount ≤ i →
        m.series i = Except.error MeasurementDataManager.AccessError.outOfRange) := by
  constructor
  · intro h
    unfold MeasurementDataManager.series
    rw [dif_pos (show i < m.series_.length from h)]
  · intro h
    unfold MeasurementDataManager.series
    rw [dif_neg (show ¬ i < m.series_.length from not_lt.mpr h)]

-- Witness for C8: in-range and out-of-range access on a one-series store.
theorem series_access_spec_witness :
    negMgr.series 0 = Except.ok ⟨[⟨-1, -2⟩]⟩ ∧
      negMgr.series 3 = Except.error MeasurementDataManager.AccessError.outOfRange :=
  ⟨(series_access_spec negMgr 0).1 (by decide),
    (series_access_spec negMgr 3).2 (by decide)⟩

/-- C9: a line whose first two extractions both yield numbers appends the
point formed from those two numbers even when further text follows the second
number (the remainder `r2` is arbitrary and never examined), while a line on
which the two extractions do not both succeed appends nothing and leaves the
manager unchanged. -/
theorem parseDataLine_two_tokens (m : MeasurementDataManager) (line : List Char) :
    (∀ (x : ℚ) (r1 : List Char) (y : ℚ) (r2 : List Char),
        parseDouble line = some (x, r1) → parseDouble r1 = some (y, r2) →
        m.parseDataLine line =
          { m with tempSeries_ := ⟨m.tempSeries_.points ++ [⟨x, y⟩]⟩ }) ∧
      (parsePoint line = none → m.parseDataLine line = m) := by
  constructor
  · intro x r1 y r2 h1 h2
    unfold MeasurementDataManager.parseDataLine parsePoint
    rw [h1]
    dsimp only
    rw [h2]
    rfl
  · intro hp
    unfold MeasurementDataManager.parseDataLine
    rw [hp]

-- Witness for C9: `1.0 2.0 g` appends `(1, 2)`; `g` appends nothing.
set_option maxRecDepth 8192 in
set_option exponentiation.threshold 1100 in
unseal Rat.mul Rat.inv in
theorem parseDataLine_two_tokens_witness :
    MeasurementDataManager.init.parseDataLine
        ['1', '.', '0', ' ', '2', '.', '0', ' ', 'g'] =
      { MeasurementDataManager.init with tempSeries_ := ⟨[⟨1, 2⟩]⟩ } ∧
      MeasurementDataManager.init.parseDataLine ['g'] = MeasurementDataManager.init :=
  ⟨(parseDataLine_two_tokens MeasurementDataManager.init
        ['1', '.', '0', ' ', '2', '.', '0', ' ', 'g']).1
      1 [' ', '2', '.', '0', ' ', 'g'] 2 [' ', 'g'] (by decide) (by decide),
    (parseDataLine_two_tokens MeasurementDataManager.init ['g']).2 (by decide)⟩

/-- C10: the getters never return a value below `0.0`: each equals the
right fold of `max` with start value `0` over the respective coordinates of
all points (completed and temporary), i.e. the maximum of `0.0` and all
coordinates, so on the all-negative store `negMgr` they return `0` instead
of the actual maximum point value. -/
theorem getMax_never_negative (m : MeasurementDataManager) :
    m.getMaxVoltage = m.allVoltages.foldr max 0 ∧
      m.getMaxCurrent = m.allCurrents.foldr max 0 ∧
      0 ≤ m.getMaxVoltage ∧ 0 ≤ m.getMaxCurrent ∧
      negMgr.getMaxVoltage = 0 ∧ negMgr.getMaxCurrent = 0 := by
  refine ⟨?_, ?_, ?_, ?_, by decide, by decide⟩
  · rw [MeasurementDataManager.getMaxVoltage_foldl,
      MeasurementDataManager.foldl_max_eq_foldr_max]
  · rw [MeasurementDataManager.getMaxCurrent_foldl,
      MeasurementDataManager.foldl_max_eq_foldr_max]
  · rw [MeasurementDataManager.getMaxVoltage_foldl]
    exact MeasurementDataManager.init_le_foldl_max _ 0
  · rw [MeasurementDataManager.getMaxCurrent_foldl]
    exact MeasurementDataManager.init_le_foldl_max _ 0
